import Mathlib

/-! Texture registry and material load callbacks.

A shallow embedding of `TextureManager` (texturemanager.cpp) and of the
on-load callback machinery of `Material` (material.cpp), followed by the
properties proved about them.

Conventions of the embedding:

* a `std::string` is the list of its characters (`Str`);
* a `std::shared_ptr<Texture>` is the address of a `Texture` object in `heap`
  (`TexPtr`); `nullptr` results are `none`;
* member functions take the object state and return the new state together
  with the returned value;
* `uint32_t` results are natural numbers reduced modulo `2 ^ 32`;
* the number of strong owners of a texture object (`use_count()`) is an input of
  `ClearUnused`, since callers hold and drop their references outside the manager;
* functions of other libraries (`FileManager`, `ufile`) and the image format
  table are collected in `Env` and taken as given;
* a callback is an identity together with a body, given by `Material.Bodies`, that
  runs on the material when the callback is invoked, may call back into it and may
  throw.
-/

namespace MatSys

/-! ## Strings -/

/-- A `std::string`, as the sequence of its characters. -/
abbrev Str := List Char

/-- The characters of a string literal. -/
def str (s : String) : Str := s.toList

/-- The character `\` (code 92). -/
def backslash : Char := Char.ofNat 92

/-- The character `.` (code 46). -/
def dot : Char := Char.ofNat 46

/-- The character `/` (code 47). -/
def slash : Char := Char.ofNat 47

/-- Index of the last occurrence of `c` in `s`, as `std::string::find_last_of(char)`;
`none` stands for `npos`. -/
def find_last_of : Str → Char → Option Nat
  | [], _ => none
  | x :: xs, c =>
    match find_last_of xs c with
    | some i => some (i + 1)
    | none => if x = c then some 0 else none

/-- Index of the first occurrence of `c` in `s`, as `std::string::find(char)`. -/
def find_first : Str → Char → Option Nat
  | [], _ => none
  | x :: xs, c => if x = c then some 0 else (find_first xs c).map (· + 1)

/-- Index of the first occurrence of `c` at or after `pos`, as
`std::string::find(char, pos)`; `none` stands for `npos`. -/
def find (s : Str) (c : Char) (pos : Nat) : Option Nat :=
  (find_first (s.drop pos) c).map (· + pos)

/-- The substring `s.substr(pos, n)`. -/
def substr (s : Str) (pos n : Nat) : Str := (s.drop pos).take n

/-! ## External collaborators -/

/-- One entry of the supported image format table; only its `extension` is read. -/
structure ImageFormat where
  extension : Str
deriving DecidableEq

/-- Functions and tables the texture manager calls but does not define:
`FileManager::GetNormalizedPath`, `FileManager::ComparePath`,
`ufile::remove_extension_from_filename` (the string it leaves in its in-out
argument) and `MaterialManager::get_supported_image_formats`. -/
structure Env where
  GetNormalizedPath : Str → Str
  ComparePath : Str → Str → Bool
  remove_extension_from_filename : Str → List Str → Str
  get_supported_image_formats : List ImageFormat

/-! ## Texture objects -/

/-- Address of a `Texture` object, the target of a `std::shared_ptr<Texture>`. -/
abbrev TexPtr := Nat

/-- Identity of a GPU texture object (`prosper::Texture`). -/
abbrev GpuTexture := Nat

/-- Modelled from the spec: the `Texture` class (texture.h is not part of the
sources at hand), a named resource with a logical name and an optional backing
GPU object. -/
structure Texture where
  m_name : Str
  m_texture : Option GpuTexture
deriving DecidableEq

namespace Texture

/-- Modelled from the spec: a freshly constructed `Texture` is a placeholder without
name and without backing GPU object. -/
def new : Texture := { m_name := [], m_texture := none }

/-- Setter `Texture::SetVkTexture`. -/
def SetVkTexture (t : Texture) (texture : Option GpuTexture) : Texture :=
  { t with m_texture := texture }

/-- Setter `Texture::SetName`. -/
def SetName (t : Texture) (name : Str) : Texture := { t with m_name := name }

/-- Getter `Texture::GetName`. -/
def GetName (t : Texture) : Str := t.m_name

/-- Getter `Texture::GetVkTexture`. -/
def GetVkTexture (t : Texture) : Option GpuTexture := t.m_texture

/-- Modelled from the spec: `Texture::Reset` releases the backing GPU object and
keeps the object itself (and its name), leaving a reloadable placeholder. -/
def Reset (t : Texture) : Texture := { t with m_texture := none }

end Texture

/-! ## The texture manager -/

/-- An item of the load queue or of the init queue (`TextureQueueItem`), by identity. -/
abbrev TextureQueueItem := Nat

/-- State of a `TextureManager`, together with the `Texture` objects its
pointers refer to and the function-local static of `GetTexture`. -/
structure TextureManager where
  /-- Texture objects by address; `make_shared` allocates at the end. -/
  heap : List Texture
  /-- The registry. -/
  m_textures : List TexPtr
  /-- The pending-load table of placeholders. -/
  m_texturesTmp : List TexPtr
  m_loadQueue : List TextureQueueItem
  m_initQueue : List TextureQueueItem
  m_bThreadActive : Bool
  m_bBusy : Bool
  /-- The loader thread, `none` for `nullptr`. -/
  m_threadLoad : Option Nat
  /-- Whether the condition variable and each mutex are allocated. -/
  m_queueVar : Bool
  m_queueMutex : Bool
  m_lockMutex : Bool
  m_activeMutex : Bool
  m_loadMutex : Bool
  m_textureSampler : Option Nat
  m_textureSamplerNoMipmap : Option Nat
  m_error : Option TexPtr
  /-- The static `supportedExtensions` of `GetTexture`. -/
  supportedExtensions : List Str
deriving DecidableEq

namespace TextureManager

/-- A manager with an empty registry: no thread, no queued work, no samplers and no error
texture. -/
def empty : TextureManager :=
  { heap := [], m_textures := [], m_texturesTmp := [], m_loadQueue := [], m_initQueue := [],
    m_bThreadActive := false, m_bBusy := false, m_threadLoad := none,
    m_queueVar := false, m_queueMutex := false, m_lockMutex := false,
    m_activeMutex := false, m_loadMutex := false,
    m_textureSampler := none, m_textureSamplerNoMipmap := none, m_error := none,
    supportedExtensions := [] }

/-- The object a pointer refers to; `none` when nothing is allocated there. -/
def deref (s : TextureManager) (tex : TexPtr) : Option Texture := s.heap[tex]?

/-- The name `tex->GetName()` of the object behind a pointer. -/
def GetName (s : TextureManager) (tex : TexPtr) : Option Str :=
  (s.deref tex).map Texture.GetName

/-- The GPU object `tex->GetVkTexture()` behind a pointer, `none` when it is null. -/
def GetVkTexture (s : TextureManager) (tex : TexPtr) : Option GpuTexture :=
  (s.deref tex).bind Texture.GetVkTexture

/-- The body of `TextureManager::HasWork`. -/
def HasWork (s : TextureManager) : Bool :=
  if s.m_bThreadActive = false then false
  else if s.m_bBusy then true
  else
    let hasLoadItem := (s.m_loadQueue.isEmpty == false)
    if hasLoadItem then true
    else
      let hasInitItem := (s.m_initQueue.isEmpty == false)
      hasInitItem

/-- The body of `TextureManager::CreateTexture`: look for an entry with this exact name,
return it when there is one, otherwise allocate a texture object, attach the GPU
texture, name it and push it to the back of the registry. -/
def CreateTexture (s : TextureManager) (name : Str) (texture : GpuTexture) :
    TextureManager × TexPtr :=
  match s.m_textures.find? (fun tex => decide (s.GetName tex = some name)) with
  | some it => (s, it)
  | none =>
    let tex := s.heap.length
    let obj := ((Texture.new).SetVkTexture (some texture)).SetName name
    ({ s with heap := s.heap ++ [obj], m_textures := s.m_textures ++ [tex] }, tex)

/-- The loop of `GetTexture` that fills the static extension list from the format table. -/
def pushExtensions (formats : List ImageFormat) (acc : List Str) : List Str :=
  formats.foldl (fun l format => l ++ [format.extension]) acc

/-- The body of `TextureManager::GetTexture`. -/
def GetTexture (env : Env) (s : TextureManager) (name : Str) :
    TextureManager × Option TexPtr :=
  let nameNoExt := name
  let supportedExtensions :=
    if s.supportedExtensions.isEmpty then
      pushExtensions env.get_supported_image_formats s.supportedExtensions
    else s.supportedExtensions
  let nameNoExt := env.remove_extension_from_filename nameNoExt supportedExtensions
  let it := s.m_textures.find? (fun tex =>
    match s.GetName tex with
    | some texNoExt =>
      env.ComparePath nameNoExt (env.remove_extension_from_filename texNoExt supportedExtensions)
    | none => false)
  ({ s with supportedExtensions := supportedExtensions }, it)

/-- The loop `while(!m_loadQueue.empty()) m_loadQueue.pop();`. -/
def popAll : List TextureQueueItem → List TextureQueueItem
  | [] => []
  | _ :: q => popAll q

/-- The body of `TextureManager::Clear`. Joining the loader thread is a
synchronisation step; the writes of `Clear` itself are what is modelled. -/
def Clear (s : TextureManager) : TextureManager × Nat :=
  let s1 :=
    if s.m_threadLoad.isSome then
      { s with m_bThreadActive := false, m_threadLoad := none, m_queueVar := false,
               m_queueMutex := false, m_lockMutex := false, m_activeMutex := false,
               m_loadMutex := false }
    else s
  let s2 := { s1 with m_loadQueue := popAll s1.m_loadQueue }
  let n := s2.m_textures.length
  ({ s2 with m_textures := [], m_textureSampler := none, m_textureSamplerNoMipmap := none,
             m_error := none }, n % 2 ^ 32)

/-- The call `tex->Reset()` on the object behind a pointer. -/
def resetAt (s : TextureManager) (tex : TexPtr) : TextureManager :=
  match s.deref tex with
  | some obj => { s with heap := s.heap.set tex obj.Reset }
  | none => s

/-- One iteration of the loop of `ClearUnused`; `use_count` gives the number of strong
owners `tex.use_count()` reports for the object behind each registry slot. -/
def clearUnusedStep (use_count : TexPtr → Nat) (acc : TextureManager × Nat) (tex : TexPtr) :
    TextureManager × Nat :=
  if use_count tex = 1 ∧ (acc.1.GetVkTexture tex).isSome then
    (acc.1.resetAt tex, (acc.2 + 1) % 2 ^ 32)
  else acc

/-- The body of `TextureManager::ClearUnused`. -/
def ClearUnused (s : TextureManager) (use_count : TexPtr → Nat) : TextureManager × Nat :=
  s.m_textures.foldl (clearUnusedStep use_count) (s, 0)

/-- What `FindTexture` hands back: the returned pointer, the string written to `*cache`
and the content of `*bLoading` (`none` when `bLoading` is `nullptr`). -/
structure FindResult where
  ret : Option TexPtr
  cache : Str
  bLoading : Option Bool
deriving DecidableEq

/-- The lookup key `FindTexture` computes from the file name. -/
def cacheKey (env : Env) (imgFile : Str) : Str :=
  let pathCache := env.GetNormalizedPath imgFile
  match find_last_of pathCache backslash with
  | some rBr =>
    match find pathCache dot (rBr + 1) with
    | some ext => substr pathCache 0 ext
    | none => pathCache
  | none => pathCache

/-- The body of `TextureManager::FindTexture(imgFile, cache, bLoading)`; the argument
`bLoading` is `none` for `nullptr` and otherwise the value the pointee holds at the call. -/
def FindTexture (env : Env) (s : TextureManager) (imgFile : Str) (bLoading : Option Bool) :
    TextureManager × FindResult :=
  let bLoading := bLoading.map (fun _ => false)
  let pathCache := cacheKey env imgFile
  let find := fun (tex : TexPtr) => decide (s.GetName tex = some pathCache)
  match s.m_textures.find? find with
  | some itTex => (s, { ret := some itTex, cache := pathCache, bLoading := bLoading })
  | none =>
    match s.m_texturesTmp.find? find with
    | some itTmp =>
      (s, { ret := some itTmp, cache := pathCache, bLoading := bLoading.map (fun _ => true) })
    | none => (s, { ret := none, cache := pathCache, bLoading := bLoading })

end TextureManager

/-! ## Reference environment -/

/-- Modelled from the spec: path normalisation only replaces `/` by `\`. -/
def normalizeSeparators (s : Str) : Str :=
  s.map (fun c => if c = slash then backslash else c)

/-- Modelled from the spec: `ufile::remove_extension_from_filename` strips the
part after the last dot of the file name when it is one of the given extensions
(compared without regard to case) and leaves the string alone otherwise. -/
def removeKnownExtension (s : Str) (extensions : List Str) : Str :=
  match find_last_of s dot with
  | none => s
  | some pos =>
    if (s.drop pos).any (fun c => c = slash || c = backslash) then s
    else if extensions.any (fun e => e.map Char.toLower == (s.drop (pos + 1)).map Char.toLower)
    then s.take pos
    else s

/-- Modelled from the spec: a reference environment. Paths are normalised by unifying
the separators, compared after normalisation without regard to case, and the
format table lists the image formats the loader registers. -/
def refEnv : Env :=
  { GetNormalizedPath := normalizeSeparators
    ComparePath := fun a b =>
      (normalizeSeparators a).map Char.toLower == (normalizeSeparators b).map Char.toLower
    remove_extension_from_filename := removeKnownExtension
    get_supported_image_formats :=
      [⟨str "dds"⟩, ⟨str "ktx"⟩, ⟨str "png"⟩, ⟨str "tga"⟩, ⟨str "vtf"⟩, ⟨str "vtex_c"⟩] }

/-! ## Materials and their on-load callbacks -/

/-- The members of `Material::StateFlags`. -/
inductive StateFlag where
  | Loaded
  | ExecutingOnLoadCallbacks
  | Error
deriving DecidableEq

/-- Modelled from the spec: a value of the bit set `Material::StateFlags` (material.h is
not part of the sources at hand), one bit for each of `Loaded`,
`ExecutingOnLoadCallbacks` and `Error`. -/
structure StateFlags where
  Loaded : Bool
  ExecutingOnLoadCallbacks : Bool
  Error : Bool
deriving DecidableEq

/-- The helper `umath::set_flag(flags, flag, set)`. -/
def set_flag (flags : StateFlags) (flag : StateFlag) (set : Bool) : StateFlags :=
  match flag with
  | .Loaded => { flags with Loaded := set }
  | .ExecutingOnLoadCallbacks => { flags with ExecutingOnLoadCallbacks := set }
  | .Error => { flags with Error := set }

/-- The helper `umath::is_flag_set(flags, flag)`. -/
def is_flag_set (flags : StateFlags) (flag : StateFlag) : Bool :=
  match flag with
  | .Loaded => flags.Loaded
  | .ExecutingOnLoadCallbacks => flags.ExecutingOnLoadCallbacks
  | .Error => flags.Error

/-- A zero-argument callback `std::function<void(void)>`, by identity. What running it
does is given by `Material.Bodies`; every invocation is recorded in the list of calls an
operation returns. -/
abbrev Callback := Nat

/-- A `CallbackHandle`: the function it refers to and whether it is still valid
(`IsValid()`); removing a callback through any copy of its handle clears `valid`. -/
structure CallbackHandle where
  fn : Callback
  valid : Bool
deriving DecidableEq

namespace CallbackHandle

/-- The handle `FunctionCallback<>::Create(f)` returns. -/
def Create (f : Callback) : CallbackHandle := { fn := f, valid := true }

/-- The test `IsValid()`. -/
def IsValid (h : CallbackHandle) : Bool := h.valid

end CallbackHandle

/-- State of a `Material`: the state flags, the on-load callbacks and the members
`Reset` clears (each `none` for a null pointer). -/
structure Material where
  m_stateFlags : StateFlags
  m_callOnLoaded : List CallbackHandle
  m_data : Option Nat
  m_shaderInfo : Option Nat
  m_shader : Option Str
  m_texDiffuse : Option Nat
  m_texNormal : Option Nat
  m_userData : Option Nat
  m_texGlow : Option Nat
  m_texParallax : Option Nat
  m_texRma : Option Nat
  m_texAlpha : Option Nat
deriving DecidableEq

namespace Material

/-- The body of `Material::IsLoaded`. -/
def IsLoaded (m : Material) : Bool := is_flag_set m.m_stateFlags StateFlag.Loaded

/-- The body of `Material::Reset`. -/
def Reset (m : Material) : Material :=
  { m with m_stateFlags := set_flag m.m_stateFlags StateFlag.Loaded false,
           m_data := none, m_shaderInfo := none, m_shader := none, m_texDiffuse := none,
           m_texNormal := none, m_userData := none, m_texGlow := none,
           m_texParallax := none, m_texRma := none, m_texAlpha := none }

/-- What a run of code leaves behind: the material, the callbacks the material invoked
during the run, in order, and whether the run ended by an exception. -/
structure Outcome where
  mat : Material
  calls : List Callback
  threw : Bool
deriving DecidableEq

/-- The bodies of the callbacks: what running callback `f` does when the material is in a
given state. A body may call back into the material (`Reset`, `SetLoaded`,
`CallOnLoaded`, removing a handle, `SetUserData`) and may throw; its outcome is the
state it leaves, the callbacks the material invoked during the run and whether the body
threw. -/
abbrev Bodies := Callback → Material → Outcome

/-- The loop `for(auto &f : m_callOnLoaded) if(f.IsValid()) f();` of `SetLoaded`, at
position `i` with `k` positions to go. The handle is read from the list when its turn
comes and a valid callback runs on the material as it is then; the call is recorded,
followed by the calls made during the run. An exception ends the loop. A callback that
changes the length of the list invalidates the iterators of the loop; the embedding
reads by position, up to the length the list had when the loop started. -/
def fireCallbacks (bodies : Bodies) : Nat → Nat → Material → List Callback → Outcome
  | 0, _, m, calls => { mat := m, calls := calls, threw := false }
  | k + 1, i, m, calls =>
    match m.m_callOnLoaded[i]? with
    | some f =>
      if f.IsValid then
        let r := bodies f.fn m
        if r.threw then { mat := r.mat, calls := calls ++ [f.fn] ++ r.calls, threw := true }
        else fireCallbacks bodies k (i + 1) r.mat (calls ++ [f.fn] ++ r.calls)
      else fireCallbacks bodies k (i + 1) m calls
    | none => fireCallbacks bodies k (i + 1) m calls

/-- The body of `Material::SetLoaded`: the state it leaves, the callbacks invoked, in order,
and whether it was left by an exception of a callback (then the statements after the
loop are not reached). -/
def SetLoaded (bodies : Bodies) (m : Material) (b : Bool) : Outcome :=
  if is_flag_set m.m_stateFlags StateFlag.ExecutingOnLoadCallbacks then
    { mat := m, calls := [], threw := false }
  else
    let m1 := { m with m_stateFlags := set_flag m.m_stateFlags StateFlag.Loaded b }
    if b = true then
      let flags2 := set_flag m1.m_stateFlags StateFlag.ExecutingOnLoadCallbacks true
      let m2 := { m1 with m_stateFlags := flags2 }
      let r := fireCallbacks bodies m2.m_callOnLoaded.length 0 m2 []
      if r.threw then r
      else
        let m3 := { r.mat with m_callOnLoaded := [] }
        let flags4 := set_flag m3.m_stateFlags StateFlag.ExecutingOnLoadCallbacks false
        let m4 := { m3 with m_stateFlags := flags4 }
        { mat := m4, calls := r.calls, threw := false }
    else { mat := m1, calls := [], threw := false }

/-- What `CallOnLoaded` hands back: the returned handle (`none` for the empty handle
`{}`), the callbacks invoked, and whether the call was left by an exception of the
callback. -/
structure CallOnLoadedResult where
  handle : Option CallbackHandle
  calls : List Callback
  threw : Bool
deriving DecidableEq

/-- The body of `Material::CallOnLoaded`. On a loaded material the callback runs at once,
on the material as it is. -/
def CallOnLoaded (bodies : Bodies) (m : Material) (f : Callback) :
    Material × CallOnLoadedResult :=
  if m.IsLoaded then
    let r := bodies f m
    (r.mat, { handle := none, calls := f :: r.calls, threw := r.threw })
  else
    let m1 := { m with m_callOnLoaded := m.m_callOnLoaded ++ [CallbackHandle.Create f] }
    (m1, { handle := m1.m_callOnLoaded.getLast?, calls := [], threw := false })

end Material

/-! ## Reloading and sampler configuration -/

/-- The values of `TextureMipmapMode`. -/
inductive TextureMipmapMode where
  | Load
  | Ignore
  | Generate
deriving DecidableEq

/-- The options `TextureManager::LoadInfo`; its constructor sets `mipmapLoadMode`. -/
structure LoadInfo where
  mipmapLoadMode : TextureMipmapMode
deriving DecidableEq

namespace LoadInfo

/-- The constructor `LoadInfo::LoadInfo()`. -/
def new : LoadInfo := { mipmapLoadMode := TextureMipmapMode.Load }

end LoadInfo

namespace prosper

/-- The values of `prosper::Filter` the manager uses. -/
inductive Filter where
  | Nearest
  | Linear
deriving DecidableEq

/-- The values of `prosper::SamplerMipmapMode`. -/
inductive SamplerMipmapMode where
  | Nearest
  | Linear
deriving DecidableEq

/-- Modelled from the spec: the sampler configuration `prosper::util::SamplerCreateInfo`
(a type of the rendering library): the filter and mipmap parameters and the LOD range
that `SetupSamplerMipmapMode` writes, and the remaining sampler parameters. A `float`
member holds its exact value. -/
structure SamplerCreateInfo where
  minFilter : Filter
  magFilter : Filter
  mipmapMode : SamplerMipmapMode
  addressModeU : Nat
  addressModeV : Nat
  addressModeW : Nat
  maxAnisotropy : ℚ
  compareEnable : Bool
  compareOp : Nat
  minLod : ℚ
  maxLod : ℚ
  borderColor : Nat
deriving DecidableEq

/-- The largest finite `float`, `std::numeric_limits<float>::max()`. -/
def floatMax : ℚ := 340282346638528859811704183484516925440

/-- Modelled from the spec: a default-constructed configuration `SamplerCreateInfo {}`
has linear filtering and the full LOD range, from 0 to the largest `float`. -/
def SamplerCreateInfo.new : SamplerCreateInfo :=
  { minFilter := Filter.Linear
    magFilter := Filter.Linear
    mipmapMode := SamplerMipmapMode.Linear
    addressModeU := 0
    addressModeV := 0
    addressModeW := 0
    maxAnisotropy := floatMax
    compareEnable := false
    compareOp := 0
    minLod := 0
    maxLod := floatMax
    borderColor := 0 }

end prosper

namespace Texture

/-- Modelled from the spec: `Texture::HasValidVkTexture` tells whether the texture has a
realized GPU object. -/
def HasValidVkTexture (t : Texture) : Bool := t.m_texture.isSome

end Texture

namespace TextureManager

/-- The member function `TextureManager::Load(context, name, loadInfo, outTexture)`, which
is defined elsewhere: from the state, the name, the options and the pointer passed in
`*outTexture` it gives the new state and the pointer it leaves in `*outTexture`. -/
abbrev LoadFn := TextureManager → Str → LoadInfo → TexPtr → TextureManager × TexPtr

/-- The test `tex->HasValidVkTexture()` on the object behind a pointer. -/
def HasValidVkTexture (s : TextureManager) (tex : TexPtr) : Bool :=
  match s.deref tex with
  | some obj => obj.HasValidVkTexture
  | none => false

/-- The body of `TextureManager::SetupSamplerMipmapMode`, returning the configuration it
leaves in `createInfo`. -/
def SetupSamplerMipmapMode (createInfo : prosper.SamplerCreateInfo) (mode : TextureMipmapMode) :
    prosper.SamplerCreateInfo :=
  match mode with
  | TextureMipmapMode.Ignore =>
    { createInfo with
      minFilter := prosper.Filter.Nearest
      magFilter := prosper.Filter.Nearest
      mipmapMode := prosper.SamplerMipmapMode.Nearest
      minLod := 0
      maxLod := 0 }
  | _ =>
    { createInfo with
      minFilter := prosper.Filter.Linear
      magFilter := prosper.Filter.Linear
      mipmapMode := prosper.SamplerMipmapMode.Linear }

/-- The body of `TextureManager::ReloadTexture(uint32_t texId, loadInfo)`. -/
def ReloadTexture (Load : LoadFn) (s : TextureManager) (texId : Nat) (loadInfo : LoadInfo) :
    TextureManager :=
  if texId ≥ s.m_textures.length then s
  else
    match s.m_textures[texId]? with
    | none => s
    | some texture =>
      if s.HasValidVkTexture texture = false then s
      else
        let r := Load s ((s.GetName texture).getD []) loadInfo texture
        { r.1 with m_textures := r.1.m_textures.set texId r.2 }

/-- Position of the first entry that passes the test, as `std::find_if` followed by
`it - begin()`; `none` when the result is `end()`. -/
def find_if_index (p : TexPtr → Bool) : List TexPtr → Option Nat
  | [] => none
  | x :: xs => if p x then some 0 else (find_if_index p xs).map (· + 1)

/-- The body of `TextureManager::ReloadTexture(Texture &texture, loadInfo)`; the texture
object is given by its address and the index found is passed on as a `uint32_t`. -/
def ReloadTextureRef (Load : LoadFn) (s : TextureManager) (texture : TexPtr)
    (loadInfo : LoadInfo) : TextureManager :=
  match find_if_index (fun texOther => decide (texOther = texture)) s.m_textures with
  | none => s
  | some it => ReloadTexture Load s (it % 2 ^ 32) loadInfo

end TextureManager

namespace TextureManager

/-- The body of the overload `TextureManager::FindTexture(imgFile, bool *bLoading)`: the
pointer it returns and the content it leaves in `*bLoading`. -/
def FindTexture_bLoading (env : Env) (s : TextureManager) (imgFile : Str)
    (bLoading : Option Bool) : TextureManager × Option TexPtr × Option Bool :=
  let r := FindTexture env s imgFile bLoading
  (r.1, r.2.ret, r.2.bLoading)

/-- The body of the overload `TextureManager::FindTexture(imgFile, bool bLoadedOnly)`. -/
def FindTexture_bLoadedOnly (env : Env) (s : TextureManager) (imgFile : Str)
    (bLoadedOnly : Bool) : TextureManager × Option TexPtr :=
  let bLoading := false
  let r := FindTexture_bLoading env s imgFile (some bLoading)
  if bLoadedOnly = true ∧ r.2.2 = some true then (r.1, none)
  else (r.1, r.2.1)

end TextureManager

/-! ## Vocabulary of the properties -/

/-- The entry `x` sits at index `i` of `l`, satisfies `P`, and no entry before it does:
`x` is the first entry of `l` with `P`. -/
def FirstAt {α : Type} (l : List α) (P : α → Prop) (i : Nat) (x : α) : Prop :=
  l[i]? = some x ∧ P x ∧ ∀ j y, j < i → l[j]? = some y → ¬ P y

/-- The extension list `GetTexture` works with once its static list is filled: the
extensions of the supported image formats, in table order. -/
def knownExtensions (env : Env) : List Str :=
  env.get_supported_image_formats.map (fun format => format.extension)

/-- Two names are the same normalized name: they compare equal under `ComparePath` after
a known image extension is removed from each, the equality `GetTexture` looks names up
with. -/
def sameNormalizedName (env : Env) (a b : Str) : Bool :=
  env.ComparePath (env.remove_extension_from_filename a (knownExtensions env))
    (env.remove_extension_from_filename b (knownExtensions env))

namespace TextureManager

/-- The state in which a new object named `name` with backing object `texture` has been
allocated and pushed to the back of the registry. -/
def withNewEntry (s : TextureManager) (name : Str) (texture : GpuTexture) : TextureManager :=
  { s with heap := s.heap ++ [{ m_name := name, m_texture := some texture }],
           m_textures := s.m_textures ++ [s.heap.length] }

/-- The names of the registry entries, in registry order. -/
def registryNames (s : TextureManager) : List (Option Str) := s.m_textures.map s.GetName

/-- Two registry names that are the same normalized name. -/
def clash (env : Env) : Option Str → Option Str → Bool
  | some a, some b => sameNormalizedName env a b
  | _, _ => false

/-- No two registry entries have the same normalized name. -/
def NormalizedNamesUnique (env : Env) (s : TextureManager) : Prop :=
  (registryNames s).Pairwise (fun a b => clash env a b = false)

/-- The calls that change the registry. -/
inductive Op where
  | createTexture (name : Str) (texture : GpuTexture)
  | clearUnused (use_count : TexPtr → Nat)
  | clear

/-- The state after one call. -/
def step (s : TextureManager) : Op → TextureManager
  | Op.createTexture name texture => (s.CreateTexture name texture).1
  | Op.clearUnused use_count => (s.ClearUnused use_count).1
  | Op.clear => s.Clear.1

/-- The state after a sequence of calls. -/
def run (s : TextureManager) (ops : List Op) : TextureManager := ops.foldl step s

/-- The registry invariant the calls maintain: every registry pointer refers to an
allocated object and the names of the entries are pairwise different strings. -/
def ExactNamesUnique (s : TextureManager) : Prop :=
  (∀ tex ∈ s.m_textures, tex < s.heap.length) ∧ (registryNames s).Nodup

/-- The second state has the registry of the first, as many objects, and the same name
behind every pointer. -/
def SameNames (a b : TextureManager) : Prop :=
  b.m_textures = a.m_textures ∧ b.heap.length = a.heap.length ∧
    ∀ tex, b.GetName tex = a.GetName tex

/-- The test of `GetTexture` on one entry, against the filled extension list. -/
def Matches (env : Env) (s : TextureManager) (name : Str) (tex : TexPtr) : Prop :=
  ∃ texName, s.GetName tex = some texName ∧
    env.ComparePath (env.remove_extension_from_filename name (knownExtensions env))
      (env.remove_extension_from_filename texName (knownExtensions env)) = true

end TextureManager

namespace TextureManager

/-- The test of the loop of `ClearUnused` on an entry, in state `s`: the registry is the
only strong owner and the entry has a backing GPU object. -/
def isUnused (use_count : TexPtr → Nat) (s : TextureManager) (tex : TexPtr) : Bool :=
  decide (use_count tex = 1) && (s.GetVkTexture tex).isSome

/-- The second state differs from the first in the texture objects only. -/
def SameButHeap (a b : TextureManager) : Prop := b = { a with heap := b.heap }

/-- No work is in flight: the worker-active flag is clear, both queues are empty and the
pending-load table holds no placeholder. -/
def NoInflightWork (s : TextureManager) : Prop :=
  s.m_bThreadActive = false ∧ s.m_loadQueue = [] ∧ s.m_initQueue = [] ∧ s.m_texturesTmp = []

/-- A manager in the middle of loading `brick`: the loader thread runs, one request waits
in the load queue, one decoded item waits in the init queue, and the placeholder of
`brick` sits in the pending-load table. -/
def loadingState : TextureManager :=
  { TextureManager.empty with
    heap := [{ m_name := str "brick", m_texture := none }]
    m_texturesTmp := [0]
    m_loadQueue := [5]
    m_initQueue := [4]
    m_bThreadActive := true
    m_threadLoad := some 1
    m_queueVar := true
    m_queueMutex := true
    m_lockMutex := true
    m_activeMutex := true
    m_loadMutex := true }

/-- A registry of two textures; the first is held by the registry alone, the second also
by somebody else. -/
def twoTextures : TextureManager :=
  TextureManager.empty.run [Op.createTexture (str "floor") 1, Op.createTexture (str "wall") 2]

/-- The strong owner counts that go with `twoTextures`. -/
def twoTexturesOwners (tex : TexPtr) : Nat := if tex = 0 then 1 else 2

end TextureManager

namespace Material

/-- A callback keeps the load state: whatever the state of the material, its body returns
normally, makes the material invoke nothing, and leaves the state flags and the
callback list as they are (it does not call back into `Reset`, `Initialize`,
`SetLoaded` or `CallOnLoaded` and removes no handle). -/
def KeepsLoadState (bodies : Bodies) (f : Callback) : Prop :=
  ∀ m : Material, (bodies f m).threw = false ∧ (bodies f m).calls = [] ∧
    (bodies f m).mat.m_callOnLoaded = m.m_callOnLoaded ∧
    (bodies f m).mat.m_stateFlags = m.m_stateFlags

/-- Callbacks that do not touch the material. -/
def inertBodies : Bodies := fun _ m => { mat := m, calls := [], threw := false }

/-- Callbacks that store their own identity in the material through `SetUserData`. -/
def taggingBodies : Bodies :=
  fun f m => { mat := { m with m_userData := some f }, calls := [], threw := false }

/-- Callback 7 calls `Reset` on the material; the other callbacks do not touch it. -/
def resettingBodies : Bodies :=
  fun f m => if f = 7 then { mat := m.Reset, calls := [], threw := false }
    else { mat := m, calls := [], threw := false }

/-- Callback 3 calls `Reset` on the material and then registers callback 7 through
`CallOnLoaded`; the other callbacks do not touch the material. -/
def reregisteringBodies : Bodies :=
  fun f m =>
    if f = 3 then
      { mat := (m.Reset.CallOnLoaded inertBodies 7).1
        calls := (m.Reset.CallOnLoaded inertBodies 7).2.calls
        threw := (m.Reset.CallOnLoaded inertBodies 7).2.threw }
    else { mat := m, calls := [], threw := false }

/-- Callback 5 calls `SetLoaded(false)` on the material; the other callbacks do not touch
it. -/
def unloadingBodies : Bodies :=
  fun f m => if f = 5 then m.SetLoaded inertBodies false
    else { mat := m, calls := [], threw := false }

/-- A material that is not loaded and has nothing registered. -/
def fresh : Material :=
  { m_stateFlags := { Loaded := false, ExecutingOnLoadCallbacks := false, Error := false }
    m_callOnLoaded := []
    m_data := none, m_shaderInfo := none, m_shader := none, m_texDiffuse := none
    m_texNormal := none, m_userData := none, m_texGlow := none, m_texParallax := none
    m_texRma := none, m_texAlpha := none }

/-- A loaded material that still holds one callback. -/
def loaded : Material :=
  { fresh with
    m_stateFlags := { Loaded := true, ExecutingOnLoadCallbacks := false, Error := false }
    m_callOnLoaded := [CallbackHandle.Create 3]
    m_data := some 1 }

end Material

namespace Material

/-- A material that is not loaded and holds callback 3. -/
def waiting : Material :=
  { fresh with m_callOnLoaded := [CallbackHandle.Create 3], m_data := some 1 }

/-- A material inside the loop of `SetLoaded(true)`: the `Loaded` flag has been set,
`ExecutingOnLoadCallbacks` is set and the callback list, here with one callback, is being
iterated. -/
def firing : Material :=
  { fresh with
    m_stateFlags := { Loaded := true, ExecutingOnLoadCallbacks := true, Error := false }
    m_callOnLoaded := [CallbackHandle.Create 3]
    m_data := some 1 }

end Material

namespace TextureManager

/-- The full LOD range: from 0 to the largest `float`, as in a default-constructed
configuration. -/
def FullLodRange (c : prosper.SamplerCreateInfo) : Prop :=
  c.minLod = 0 ∧ c.maxLod = prosper.floatMax

/-- The zero LOD range. -/
def ZeroLodRange (c : prosper.SamplerCreateInfo) : Prop :=
  c.minLod = 0 ∧ c.maxLod = 0

/-- The members of a sampler configuration other than the filters, the mipmap mode and
the LOD range are the same in both configurations. -/
def SameOtherFields (a b : prosper.SamplerCreateInfo) : Prop :=
  b.addressModeU = a.addressModeU ∧ b.addressModeV = a.addressModeV ∧
  b.addressModeW = a.addressModeW ∧ b.maxAnisotropy = a.maxAnisotropy ∧
  b.compareEnable = a.compareEnable ∧ b.compareOp = a.compareOp ∧
  b.borderColor = a.borderColor

/-- A load function that enqueues a request and hands the pointer back. -/
def enqueueLoad : LoadFn :=
  fun s _ _ tex => ({ s with m_loadQueue := s.m_loadQueue ++ [tex] }, tex)

end TextureManager

namespace TextureManager

/-- A registry that holds the single texture `brick`. -/
def brickRegistry : TextureManager :=
  TextureManager.empty.run [Op.createTexture (str "brick") 1]

end TextureManager

end MatSys

/-! ## Properties -/

namespace MatSys

/-- A successful `find?` returns the first entry that passes the test. -/
theorem firstAt_of_find? {α : Type} (p : α → Bool) :
    ∀ (l : List α) (x : α), l.find? p = some x → ∃ i, FirstAt l (fun y => p y = true) i x
  | [], x, h => by simp at h
  | a :: l, x, h => by
    by_cases ha : p a = true
    · rw [List.find?_cons_of_pos _ ha] at h
      cases h
      exact ⟨0, by simp, ha, fun j y hj => absurd hj (Nat.not_lt_zero j)⟩
    · rw [List.find?_cons_of_neg _ ha] at h
      obtain ⟨i, hi, hp, hbefore⟩ := firstAt_of_find? p l x h
      refine ⟨i + 1, by simpa using hi, hp, ?_⟩
      intro j y hj hy
      cases j with
      | zero =>
        have : a = y := by simpa using hy
        exact this ▸ ha
      | succ j => exact hbefore j y (by omega) (by simpa using hy)

/-- Two first entries for the same test are the same entry at the same index. -/
theorem firstAt_unique {α : Type} {l : List α} {P : α → Prop} {i j : Nat} {x y : α}
    (hx : FirstAt l P i x) (hy : FirstAt l P j y) : i = j ∧ x = y := by
  obtain ⟨hxi, hxp, hxb⟩ := hx
  obtain ⟨hyj, hyp, hyb⟩ := hy
  have hij : i = j := by
    rcases Nat.lt_trichotomy i j with h | h | h
    · exact absurd hxp (hyb i x h hxi)
    · exact h
    · exact absurd hyp (hxb j y h hyj)
  subst hij
  exact ⟨rfl, Option.some.inj (hxi.symm.trans hyj)⟩

namespace TextureManager

/-- The registry scan of `CreateTexture` fails exactly when no entry has the name. -/
theorem find_name_none (s : TextureManager) (name : Str) (l : List TexPtr) :
    l.find? (fun tex => decide (s.GetName tex = some name)) = none ↔
      ∀ tex ∈ l, s.GetName tex ≠ some name := by
  simp [List.find?_eq_none]

/-- The registry scan of `CreateTexture` succeeds when some entry has the name, and then
yields the first such entry. -/
theorem find_name_some (s : TextureManager) (name : Str) (l : List TexPtr)
    (h : ∃ tex ∈ l, s.GetName tex = some name) :
    ∃ it i, l.find? (fun tex => decide (s.GetName tex = some name)) = some it ∧
      FirstAt l (fun tex => s.GetName tex = some name) i it := by
  cases hf : l.find? (fun tex => decide (s.GetName tex = some name)) with
  | none =>
    obtain ⟨tex, hmem, hname⟩ := h
    exact absurd hname ((find_name_none s name l).1 hf tex hmem)
  | some it =>
    obtain ⟨i, hi, hp, hb⟩ := firstAt_of_find? _ l it hf
    refine ⟨it, i, rfl, hi, by simpa using hp, ?_⟩
    intro j y hj hy
    simpa using hb j y hj hy

/-- C1: `CreateTexture(name, texture)` is create-or-get. When a registry entry already
has this name, the call returns the first such entry and the whole state (registry,
texture objects) is unchanged, so the passed texture is attached to nothing. Otherwise
exactly one pointer is pushed to the back of the registry; it is the returned one, it
refers to a newly allocated object named `name` whose backing object is the passed
texture, and every object that existed before is untouched. -/
theorem CreateTexture_create_or_get (s : TextureManager) (name : Str) (texture : GpuTexture) :
    ((∃ tex ∈ s.m_textures, s.GetName tex = some name) →
      (s.CreateTexture name texture).1 = s ∧
      ∃ i, FirstAt s.m_textures (fun tex => s.GetName tex = some name) i
        (s.CreateTexture name texture).2) ∧
    ((∀ tex ∈ s.m_textures, s.GetName tex ≠ some name) →
      (s.CreateTexture name texture).1 =
        { s with heap := s.heap ++ [{ m_name := name, m_texture := some texture }],
                 m_textures := s.m_textures ++ [(s.CreateTexture name texture).2] } ∧
      (s.CreateTexture name texture).1.m_textures.length = s.m_textures.length + 1 ∧
      s.deref (s.CreateTexture name texture).2 = none ∧
      (s.CreateTexture name texture).1.GetName (s.CreateTexture name texture).2 = some name ∧
      (s.CreateTexture name texture).1.GetVkTexture (s.CreateTexture name texture).2
        = some texture ∧
      ∀ tex obj, s.deref tex = some obj →
        (s.CreateTexture name texture).1.deref tex = some obj) := by
  constructor
  · intro h
    obtain ⟨it, i, hf, hfirst⟩ := find_name_some s name s.m_textures h
    have hc : s.CreateTexture name texture = (s, it) := by simp only [CreateTexture, hf]
    rw [hc]
    exact ⟨rfl, i, hfirst⟩
  · intro h
    have hf := (find_name_none s name s.m_textures).2 h
    have hc : s.CreateTexture name texture =
        ({ s with heap := s.heap ++ [{ m_name := name, m_texture := some texture }],
                  m_textures := s.m_textures ++ [s.heap.length] }, s.heap.length) := by
      simp only [CreateTexture, hf, Texture.SetName, Texture.SetVkTexture, Texture.new]
    rw [hc]
    refine ⟨rfl, by simp, by simp [deref], by simp [GetName, deref, Texture.GetName],
      by simp [GetVkTexture, deref, Texture.GetVkTexture], ?_⟩
    intro tex obj hobj
    simp only [deref] at hobj ⊢
    have hlt : tex < s.heap.length := by
      by_contra hge
      rw [List.getElem?_eq_none (Nat.le_of_not_lt hge)] at hobj
      cases hobj
    rw [List.getElem?_append_left hlt]
    exact hobj

end TextureManager

/-- The first entry for a test is the first entry for any equivalent test. -/
theorem firstAt_congr {α : Type} {l : List α} {P Q : α → Prop} {i : Nat} {x : α}
    (hPQ : ∀ y, P y ↔ Q y) (h : FirstAt l P i x) : FirstAt l Q i x :=
  ⟨h.1, (hPQ x).1 h.2.1, fun j y hj hy hq => h.2.2 j y hj hy ((hPQ y).2 hq)⟩

namespace TextureManager

/-- When the name is absent `CreateTexture` allocates and pushes one entry. -/
theorem CreateTexture_eq_of_absent (s : TextureManager) (name : Str) (texture : GpuTexture)
    (h : ∀ tex ∈ s.m_textures, s.GetName tex ≠ some name) :
    s.CreateTexture name texture = (s.withNewEntry name texture, s.heap.length) := by
  have hf := (find_name_none s name s.m_textures).2 h
  simp only [CreateTexture, hf, Texture.SetName, Texture.SetVkTexture, Texture.new, withNewEntry]

/-- When the name is present `CreateTexture` changes nothing. -/
theorem CreateTexture_eq_of_present (s : TextureManager) (name : Str) (texture : GpuTexture)
    (h : ∃ tex ∈ s.m_textures, s.GetName tex = some name) :
    (s.CreateTexture name texture).1 = s := by
  obtain ⟨it, i, hf, _⟩ := find_name_some s name s.m_textures h
  simp only [CreateTexture, hf]

/-- The name behind an allocated pointer is not affected by allocating one more object. -/
theorem GetName_withNewEntry (s : TextureManager) (name : Str) (texture : GpuTexture)
    (tex : TexPtr) (h : tex < s.heap.length) :
    (s.withNewEntry name texture).GetName tex = s.GetName tex := by
  simp only [GetName, deref, withNewEntry]
  rw [List.getElem?_append_left h]

/-- The call `CreateTexture` keeps the registry invariant. -/
theorem CreateTexture_exactNamesUnique (s : TextureManager) (name : Str) (texture : GpuTexture)
    (h : ExactNamesUnique s) : ExactNamesUnique (s.CreateTexture name texture).1 := by
  by_cases hp : ∃ tex ∈ s.m_textures, s.GetName tex = some name
  · rw [CreateTexture_eq_of_present s name texture hp]
    exact h
  · have habs : ∀ tex ∈ s.m_textures, s.GetName tex ≠ some name := by
      intro tex hmem hname
      exact hp ⟨tex, hmem, hname⟩
    rw [CreateTexture_eq_of_absent s name texture habs]
    obtain ⟨hvalid, hnodup⟩ := h
    constructor
    · intro tex hmem
      simp only [withNewEntry, List.mem_append, List.mem_singleton] at hmem
      simp only [withNewEntry, List.length_append, List.length_singleton]
      rcases hmem with hmem | hmem
      · exact Nat.lt_succ_of_lt (hvalid tex hmem)
      · rw [hmem]
        exact Nat.lt_succ_self _
    · have hold : ∀ tex ∈ s.m_textures,
          (s.withNewEntry name texture).GetName tex = s.GetName tex :=
        fun tex hmem => GetName_withNewEntry s name texture tex (hvalid tex hmem)
      have hnew : (s.withNewEntry name texture).GetName s.heap.length = some name := by
        simp [GetName, deref, Texture.GetName, withNewEntry]
      have hreg : (s.withNewEntry name texture).m_textures = s.m_textures ++ [s.heap.length] := rfl
      simp only [registryNames, hreg]
      simp only [registryNames, List.map_append, List.map_cons, List.map_nil, hnew]
      rw [List.map_congr_left hold]
      rw [List.nodup_append]
      refine ⟨hnodup, List.nodup_singleton _, ?_⟩
      intro a ha hb
      simp only [List.mem_singleton] at hb
      subst hb
      simp only [List.mem_map] at ha
      obtain ⟨tex, hmem, hname⟩ := ha
      exact habs tex hmem hname

/-- Resetting one object keeps the registry, the number of objects and all names. -/
theorem resetAt_sameNames (s : TextureManager) (tex : TexPtr) : SameNames s (s.resetAt tex) := by
  unfold resetAt
  cases hd : s.deref tex with
  | none => exact ⟨rfl, rfl, fun _ => rfl⟩
  | some obj =>
    refine ⟨rfl, by simp, ?_⟩
    intro p
    simp only [GetName, deref, List.getElem?_set]
    by_cases hp : tex = p
    · subst hp
      simp only [deref] at hd
      have hlt : tex < s.heap.length := by
        by_contra hge
        rw [List.getElem?_eq_none (Nat.le_of_not_lt hge)] at hd
        cases hd
      simp [hlt, hd, Texture.Reset, Texture.GetName]
    · simp [hp]

/-- The relation `SameNames` composes. -/
theorem sameNames_trans {a b c : TextureManager} (hab : SameNames a b) (hbc : SameNames b c) :
    SameNames a c :=
  ⟨hbc.1.trans hab.1, hbc.2.1.trans hab.2.1, fun tex => (hbc.2.2 tex).trans (hab.2.2 tex)⟩

/-- The loop of `ClearUnused` keeps the registry, the number of objects and all names. -/
theorem clearUnused_fold_sameNames (use_count : TexPtr → Nat) :
    ∀ (l : List TexPtr) (acc : TextureManager × Nat),
      SameNames acc.1 (l.foldl (clearUnusedStep use_count) acc).1
  | [], _ => ⟨rfl, rfl, fun _ => rfl⟩
  | tex :: l, acc => by
    rw [List.foldl_cons]
    refine sameNames_trans ?_ (clearUnused_fold_sameNames use_count l _)
    unfold clearUnusedStep
    split
    · exact resetAt_sameNames acc.1 tex
    · exact ⟨rfl, rfl, fun _ => rfl⟩

/-- A state with the same registry and names keeps the registry invariant. -/
theorem exactNamesUnique_of_sameNames {a b : TextureManager} (hab : SameNames a b)
    (h : ExactNamesUnique a) : ExactNamesUnique b := by
  obtain ⟨hreg, hlen, hname⟩ := hab
  refine ⟨?_, ?_⟩
  · intro tex hmem
    rw [hlen]
    exact h.1 tex (hreg ▸ hmem)
  · have : registryNames b = registryNames a := by
      simp only [registryNames, hreg]
      exact List.map_congr_left (fun tex _ => hname tex)
    rw [this]
    exact h.2

/-- Every call keeps the registry invariant. -/
theorem step_exactNamesUnique (s : TextureManager) (op : Op) (h : ExactNamesUnique s) :
    ExactNamesUnique (s.step op) := by
  cases op with
  | createTexture name texture => exact CreateTexture_exactNamesUnique s name texture h
  | clearUnused use_count =>
    exact exactNamesUnique_of_sameNames (clearUnused_fold_sameNames use_count s.m_textures (s, 0)) h
  | clear =>
    refine ⟨?_, ?_⟩
    · intro tex hmem
      simp [step, Clear] at hmem
    · simp [step, Clear, registryNames]

/-- Every sequence of calls keeps the registry invariant. -/
theorem run_exactNamesUnique :
    ∀ (ops : List Op) (s : TextureManager), ExactNamesUnique s → ExactNamesUnique (s.run ops)
  | [], _, h => h
  | op :: ops, s, h => run_exactNamesUnique ops (s.step op) (step_exactNamesUnique s op h)

/-- C2 (as stated, refuted): after `CreateTexture("brick.dds")` followed by
`CreateTexture("brick")` on an empty registry there are two entries, and they have the
same normalized name. -/
theorem normalized_names_not_unique :
    (TextureManager.empty.run
        [Op.createTexture (str "brick.dds") 1, Op.createTexture (str "brick") 2]).m_textures.length
      = 2 ∧
    ¬ NormalizedNamesUnique refEnv (TextureManager.empty.run
        [Op.createTexture (str "brick.dds") 1, Op.createTexture (str "brick") 2]) := by
  unfold NormalizedNamesUnique
  decide

/-- C2 (amended): starting from an empty registry, after every sequence of
`CreateTexture`, `ClearUnused` and `Clear` calls every registry entry refers to an
allocated object with a name, and no two registry entries have the same name, where
names are compared as exact strings (the equality `CreateTexture` uses). -/
theorem registry_names_distinct (ops : List Op) :
    (∀ tex ∈ (TextureManager.empty.run ops).m_textures,
      ∃ name, (TextureManager.empty.run ops).GetName tex = some name) ∧
    ∀ (i j : Nat) (a b : Option Str), i < j →
      (registryNames (TextureManager.empty.run ops))[i]? = some a →
      (registryNames (TextureManager.empty.run ops))[j]? = some b → a ≠ b := by
  have hinv : ExactNamesUnique (TextureManager.empty.run ops) :=
    run_exactNamesUnique ops _ ⟨by simp [TextureManager.empty], by simp [registryNames, TextureManager.empty]⟩
  refine ⟨?_, ?_⟩
  · intro tex hmem
    have hlt := hinv.1 tex hmem
    refine ⟨((TextureManager.empty.run ops).heap[tex]).GetName, ?_⟩
    simp [GetName, deref, List.getElem?_eq_getElem hlt]
  · intro i j a b hij hi hj hab
    subst hab
    have hjlt : j < (registryNames (TextureManager.empty.run ops)).length := by
      by_contra hge
      rw [List.getElem?_eq_none (Nat.le_of_not_lt hge)] at hj
      cases hj
    have hilt : i < (registryNames (TextureManager.empty.run ops)).length := Nat.lt_trans hij hjlt
    rw [List.getElem?_eq_getElem hilt] at hi
    rw [List.getElem?_eq_getElem hjlt] at hj
    have heq : (registryNames (TextureManager.empty.run ops))[i]
        = (registryNames (TextureManager.empty.run ops))[j] := by
      rw [Option.some.inj hi, Option.some.inj hj]
    have := (List.Nodup.getElem_inj_iff hinv.2).1 heq
    omega

/-- The loop that fills the static list appends the table extensions in order. -/
theorem pushExtensions_eq (formats : List ImageFormat) :
    ∀ acc : List Str, pushExtensions formats acc = acc ++ formats.map (fun format => format.extension) := by
  induction formats with
  | nil => intro acc; simp [pushExtensions]
  | cons f fs ih =>
    intro acc
    have := ih (acc ++ [f.extension])
    simp only [pushExtensions, List.foldl_cons] at this ⊢
    rw [this]
    simp

/-- The extension list `GetTexture` ends up with, when the static list is either not yet
filled or was filled from the format table. -/
theorem supportedExtensions_filled (env : Env) (l : List Str)
    (h : l = [] ∨ l = knownExtensions env) :
    (if l.isEmpty then pushExtensions env.get_supported_image_formats l else l)
      = knownExtensions env := by
  rcases h with h | h
  · subst h
    simp [pushExtensions_eq, knownExtensions]
  · by_cases he : l.isEmpty
    · have hl : l = [] := List.isEmpty_iff.1 he
      rw [if_pos he, pushExtensions_eq]
      rw [hl] at h ⊢
      simp [knownExtensions]
    · rw [if_neg he]
      exact h

/-- The result of `GetTexture` is the registry scan against the filled extension list. -/
theorem GetTexture_eq (env : Env) (s : TextureManager) (name : Str)
    (hst : s.supportedExtensions = [] ∨ s.supportedExtensions = knownExtensions env) :
    GetTexture env s name =
      ({ s with supportedExtensions := knownExtensions env },
        s.m_textures.find? (fun tex =>
          match s.GetName tex with
          | some texNoExt =>
            env.ComparePath (env.remove_extension_from_filename name (knownExtensions env))
              (env.remove_extension_from_filename texNoExt (knownExtensions env))
          | none => false)) := by
  simp only [GetTexture, supportedExtensions_filled env s.supportedExtensions hst]

/-- The boolean test of `GetTexture` on an entry says the entry matches. -/
theorem matches_iff (env : Env) (s : TextureManager) (name : Str) (tex : TexPtr) :
    (match s.GetName tex with
      | some texNoExt =>
        env.ComparePath (env.remove_extension_from_filename name (knownExtensions env))
          (env.remove_extension_from_filename texNoExt (knownExtensions env))
      | none => false) = true ↔ Matches env s name tex := by
  unfold Matches
  cases s.GetName tex with
  | none => simp
  | some n => simp

/-- C4: `GetTexture(name)` returns the first registry entry, in registry order, whose
name with a known image extension removed path-compares equal to `name` with its known
image extension removed; it returns null exactly when no entry matches; the registry,
the pending table and the texture objects are unchanged. The static extension list is
assumed to be either still empty or already filled from the format table, and is filled
afterwards. -/
theorem GetTexture_first_match (env : Env) (s : TextureManager) (name : Str)
    (hst : s.supportedExtensions = [] ∨ s.supportedExtensions = knownExtensions env) :
    ((GetTexture env s name).2 = none ↔ ∀ tex ∈ s.m_textures, ¬ Matches env s name tex) ∧
    (∀ tex, (GetTexture env s name).2 = some tex →
      ∃ i, FirstAt s.m_textures (Matches env s name) i tex) ∧
    ((∃ tex ∈ s.m_textures, Matches env s name tex) →
      ∃ tex, (GetTexture env s name).2 = some tex) ∧
    (GetTexture env s name).1.m_textures = s.m_textures ∧
    (GetTexture env s name).1.m_texturesTmp = s.m_texturesTmp ∧
    (GetTexture env s name).1.heap = s.heap ∧
    (GetTexture env s name).1 = { s with supportedExtensions := knownExtensions env } := by
  rw [GetTexture_eq env s name hst]
  have hnone : s.m_textures.find? (fun tex =>
          match s.GetName tex with
          | some texNoExt =>
            env.ComparePath (env.remove_extension_from_filename name (knownExtensions env))
              (env.remove_extension_from_filename texNoExt (knownExtensions env))
          | none => false) = none ↔ ∀ tex ∈ s.m_textures, ¬ Matches env s name tex := by
    rw [List.find?_eq_none]
    constructor
    · intro h tex hmem hm
      exact h tex hmem ((matches_iff env s name tex).2 hm)
    · intro h tex hmem hm
      exact h tex hmem ((matches_iff env s name tex).1 hm)
  refine ⟨hnone, ?_, ?_, rfl, rfl, rfl, rfl⟩
  · intro tex hf
    obtain ⟨i, hfirst⟩ := firstAt_of_find? _ _ _ hf
    exact ⟨i, firstAt_congr (fun y => matches_iff env s name y) hfirst⟩
  · intro h
    simp only
    cases hf : s.m_textures.find? (fun tex =>
          match s.GetName tex with
          | some texNoExt =>
            env.ComparePath (env.remove_extension_from_filename name (knownExtensions env))
              (env.remove_extension_from_filename texNoExt (knownExtensions env))
          | none => false) with
    | some tex => exact ⟨tex, rfl⟩
    | none =>
      obtain ⟨tex, hmem, hm⟩ := h
      exact absurd hm (hnone.1 hf tex hmem)

/-- C4 (witness): in the reference environment, with the entries `brick.dds` and
`wall` registered and the static list not yet filled, `GetTexture("brick.png")` finds
the first entry. -/
theorem GetTexture_first_match_witness :
    (TextureManager.empty.run
        [Op.createTexture (str "brick.dds") 1, Op.createTexture (str "wall") 2]).supportedExtensions
      = [] ∧
    (GetTexture refEnv (TextureManager.empty.run
        [Op.createTexture (str "brick.dds") 1, Op.createTexture (str "wall") 2])
        (str "brick.png")).2 = some 0 ∧
    ∃ i, FirstAt (TextureManager.empty.run
        [Op.createTexture (str "brick.dds") 1, Op.createTexture (str "wall") 2]).m_textures
      (Matches refEnv (TextureManager.empty.run
        [Op.createTexture (str "brick.dds") 1, Op.createTexture (str "wall") 2])
        (str "brick.png")) i 0 :=
  ⟨by decide, by decide,
    (GetTexture_first_match refEnv (TextureManager.empty.run
        [Op.createTexture (str "brick.dds") 1, Op.createTexture (str "wall") 2])
        (str "brick.png") (Or.inl (by decide))).2.1 0 (by decide)⟩

/-- With the worker-active flag clear `HasWork` reports no work. -/
theorem HasWork_inactive (s : TextureManager) (h : s.m_bThreadActive = false) :
    s.HasWork = false := by
  simp [HasWork, h]

/-- C5: `HasWork()` is true exactly when the worker-active flag is set and the load
queue is non-empty, or the init queue is non-empty, or the busy flag is set; it is
false whenever the worker-active flag is clear. -/
theorem HasWork_iff (s : TextureManager) :
    (s.HasWork = true ↔
      s.m_bThreadActive = true ∧
        (s.m_loadQueue ≠ [] ∨ s.m_initQueue ≠ [] ∨ s.m_bBusy = true)) ∧
    (s.m_bThreadActive = false → s.HasWork = false) := by
  unfold HasWork
  cases hq : s.m_loadQueue <;> cases hi : s.m_initQueue <;>
    cases s.m_bThreadActive <;> cases s.m_bBusy <;> simp

/-- The object behind each pointer after one `Reset`. -/
theorem deref_resetAt (s : TextureManager) (tex p : TexPtr) :
    (s.resetAt tex).deref p = if p = tex then (s.deref tex).map Texture.Reset else s.deref p := by
  unfold resetAt
  cases hd : s.deref tex with
  | none =>
    by_cases hp : p = tex
    · subst hp
      simp [hd]
    · simp [hp]
  | some obj =>
    simp only [deref] at hd
    have hlt : tex < s.heap.length := by
      by_contra hge
      rw [List.getElem?_eq_none (Nat.le_of_not_lt hge)] at hd
      cases hd
    simp only [deref, List.getElem?_set, Option.map_some']
    by_cases hp : p = tex
    · subst hp
      simp [hlt]
    · have hp2 : ¬ tex = p := fun h => hp h.symm
      simp [hp, hp2]

/-- One `Reset` changes texture objects only. -/
theorem resetAt_sameButHeap (s : TextureManager) (tex : TexPtr) : SameButHeap s (s.resetAt tex) := by
  unfold resetAt SameButHeap
  cases s.deref tex <;> rfl

/-- The relation `SameButHeap` composes. -/
theorem sameButHeap_trans {a b c : TextureManager} (hab : SameButHeap a b)
    (hbc : SameButHeap b c) : SameButHeap a c := by
  unfold SameButHeap at *
  rw [hbc, hab]

/-- The loop of `ClearUnused` over a list of entries in which every solely owned object
occurs at most once: it resets the unused entries of the list, counts them, and leaves
everything else alone. -/
theorem clearUnused_fold (use_count : TexPtr → Nat) :
    ∀ (l : List TexPtr) (t : TextureManager) (n : Nat),
      (∀ tex, use_count tex = 1 → l.count tex ≤ 1) → n < 2 ^ 32 →
      SameButHeap t (l.foldl (clearUnusedStep use_count) (t, n)).1 ∧
      (∀ tex, (l.foldl (clearUnusedStep use_count) (t, n)).1.deref tex =
        if tex ∈ l ∧ isUnused use_count t tex = true then (t.deref tex).map Texture.Reset
        else t.deref tex) ∧
      (l.foldl (clearUnusedStep use_count) (t, n)).2
        = (n + (l.filter (isUnused use_count t)).length) % 2 ^ 32
  | [], t, n, _, hn => by
    refine ⟨rfl, fun tex => by simp, ?_⟩
    simp only [List.foldl_nil, List.filter_nil, List.length_nil, Nat.add_zero]
    exact (Nat.mod_eq_of_lt hn).symm
  | a :: l, t, n, hcount, hn => by
    have hcount2 : ∀ tex, use_count tex = 1 → l.count tex ≤ 1 := by
      intro tex h1
      have := hcount tex h1
      have hle : l.count tex ≤ (a :: l).count tex := by
        rw [List.count_cons]
        exact Nat.le_add_right _ _
      exact Nat.le_trans hle this
    rw [List.foldl_cons]
    by_cases hu : isUnused use_count t a = true
    · have hcond : use_count a = 1 ∧ (t.GetVkTexture a).isSome = true := by
        simpa [isUnused] using hu
      have hstep : clearUnusedStep use_count (t, n) a = (t.resetAt a, (n + 1) % 2 ^ 32) := by
        simp only [clearUnusedStep, if_pos hcond]
      rw [hstep]
      have hnot : a ∉ l := by
        intro hmem
        have h1 := hcount a hcond.1
        rw [List.count_cons_self] at h1
        have hpos : 0 < l.count a := List.count_pos_iff.2 hmem
        omega
      have hother : ∀ tex, tex ≠ a →
          isUnused use_count (t.resetAt a) tex = isUnused use_count t tex := by
        intro tex hne
        simp only [isUnused, GetVkTexture, deref_resetAt, if_neg hne]
      obtain ⟨hframe, hobj, hret⟩ :=
        clearUnused_fold use_count l (t.resetAt a) ((n + 1) % 2 ^ 32) hcount2
          (Nat.mod_lt _ (by decide))
      refine ⟨sameButHeap_trans (resetAt_sameButHeap t a) hframe, ?_, ?_⟩
      · intro tex
        rw [hobj tex]
        by_cases hta : tex = a
        · subst hta
          simp [hnot, hu, deref_resetAt]
        · rw [hother tex hta, deref_resetAt, if_neg hta]
          simp [hta]
      · rw [hret]
        have hfilter : l.filter (isUnused use_count (t.resetAt a))
            = l.filter (isUnused use_count t) := by
          apply List.filter_congr
          intro tex hmem
          exact hother tex (fun h => hnot (h ▸ hmem))
        rw [hfilter, List.filter_cons_of_pos hu, List.length_cons]
        omega
    · have hcond : ¬ (use_count a = 1 ∧ (t.GetVkTexture a).isSome = true) := by
        simpa [isUnused] using hu
      have hstep : clearUnusedStep use_count (t, n) a = (t, n) := by
        simp only [clearUnusedStep, if_neg hcond]
      rw [hstep]
      obtain ⟨hframe, hobj, hret⟩ := clearUnused_fold use_count l t n hcount2 hn
      refine ⟨hframe, ?_, ?_⟩
      · intro tex
        rw [hobj tex]
        by_cases hta : tex = a
        · subst hta
          simp [hu]
        · simp [hta]
      · rw [hret, List.filter_cons_of_neg hu]

/-- C6: `ClearUnused()` resets exactly the registry entries whose use count is 1 and that
have a backing GPU object: afterwards the object behind such an entry is the reset
object (no backing object), and every other object, in particular every entry with an
externally held strong reference (use count above 1), is as before. The return value is
the number of entries reset, and the registry (length, pointer at each index) and all
other members are unchanged. The use counts are those `use_count()` reports: every
registry slot counts as one strong owner; the registry has fewer than `2 ^ 32` entries,
so that the `uint32_t` counter holds the count. -/
theorem ClearUnused_resets_unused (s : TextureManager) (use_count : TexPtr → Nat)
    (howner : ∀ tex, s.m_textures.count tex ≤ use_count tex)
    (hsize : s.m_textures.length < 2 ^ 32) :
    (∀ tex, (s.ClearUnused use_count).1.deref tex =
      if tex ∈ s.m_textures ∧ isUnused use_count s tex = true
      then (s.deref tex).map Texture.Reset else s.deref tex) ∧
    (∀ tex ∈ s.m_textures, isUnused use_count s tex = true →
      (s.ClearUnused use_count).1.GetVkTexture tex = none) ∧
    (∀ tex ∈ s.m_textures, 1 < use_count tex →
      (s.ClearUnused use_count).1.deref tex = s.deref tex) ∧
    (s.ClearUnused use_count).2 = (s.m_textures.filter (isUnused use_count s)).length ∧
    (s.ClearUnused use_count).1.m_textures = s.m_textures ∧
    SameButHeap s (s.ClearUnused use_count).1 := by
  have hcount : ∀ tex, use_count tex = 1 → s.m_textures.count tex ≤ 1 :=
    fun tex h1 => h1 ▸ howner tex
  obtain ⟨hframe, hobj, hret⟩ :=
    clearUnused_fold use_count s.m_textures s 0 hcount (by decide)
  refine ⟨hobj, ?_, ?_, ?_, ?_, hframe⟩
  · intro tex hmem hu
    have := hobj tex
    rw [if_pos ⟨hmem, hu⟩] at this
    unfold ClearUnused
    simp only [GetVkTexture, this]
    cases s.deref tex <;> simp [Texture.Reset, Texture.GetVkTexture]
  · intro tex _ h1
    have hno : isUnused use_count s tex = false := by
      have hne : use_count tex ≠ 1 := Nat.ne_of_gt h1
      simp [isUnused, hne]
    have := hobj tex
    rw [if_neg (fun h => by simp [hno] at h)] at this
    exact this
  · unfold ClearUnused
    rw [hret, Nat.zero_add]
    apply Nat.mod_eq_of_lt
    exact Nat.lt_of_le_of_lt (List.length_filter_le _ _) hsize
  · unfold ClearUnused
    unfold SameButHeap at hframe
    rw [hframe]

/-- C6 (witness): in a registry of two textures where only the first is solely owned,
`ClearUnused` returns the number of unused entries, here 1, resets the first and keeps
the backing object of the second. -/
theorem ClearUnused_resets_unused_witness :
    (∀ tex, twoTextures.m_textures.count tex ≤ twoTexturesOwners tex) ∧
    twoTextures.m_textures.length < 2 ^ 32 ∧
    (twoTextures.ClearUnused twoTexturesOwners).2
      = (twoTextures.m_textures.filter (isUnused twoTexturesOwners twoTextures)).length ∧
    (twoTextures.ClearUnused twoTexturesOwners).2 = 1 ∧
    (twoTextures.ClearUnused twoTexturesOwners).1.GetVkTexture 0 = none ∧
    (twoTextures.ClearUnused twoTexturesOwners).1.GetVkTexture 1 = some 2 :=
  have hreg : twoTextures.m_textures = [0, 1] := by decide
  have howner : ∀ tex, twoTextures.m_textures.count tex ≤ twoTexturesOwners tex := by
    intro tex
    rw [hreg]
    unfold twoTexturesOwners
    by_cases h0 : tex = 0
    · subst h0
      decide
    · by_cases h1 : tex = 1
      · subst h1
        decide
      · have h0s : ¬ 0 = tex := fun h => h0 h.symm
        have h1s : ¬ 1 = tex := fun h => h1 h.symm
        simp [List.count_cons, h0, h0s, h1s]
  have hsize : twoTextures.m_textures.length < 2 ^ 32 := by
    rw [hreg]
    decide
  ⟨howner, hsize,
    (ClearUnused_resets_unused twoTextures twoTexturesOwners howner hsize).2.2.2.1,
    by decide, by decide, by decide⟩

/-- The loop that pops the load queue leaves it empty. -/
theorem popAll_eq_nil : ∀ q : List TextureQueueItem, popAll q = []
  | [] => rfl
  | _ :: q => popAll_eq_nil q

/-- The value `Clear` returns is the registry size, as a `uint32_t`. -/
theorem Clear_snd (s : TextureManager) : s.Clear.2 = s.m_textures.length % 2 ^ 32 := by
  simp only [Clear]
  split <;> rfl

/-- The registry is empty after `Clear`. -/
theorem Clear_m_textures (s : TextureManager) : s.Clear.1.m_textures = [] := by
  simp only [Clear]

/-- C7: `Clear()` returns the number of registry entries there were before the call and
leaves the registry empty; afterwards `GetTexture(name)` returns null for every name
and an immediately repeated `Clear()` returns 0. The registry has fewer than `2 ^ 32`
entries, so that the `uint32_t` result holds the count. -/
theorem Clear_returns_count (s : TextureManager) (hsize : s.m_textures.length < 2 ^ 32) :
    s.Clear.2 = s.m_textures.length ∧
    s.Clear.1.m_textures = [] ∧
    (∀ (env : Env) (name : Str), (GetTexture env s.Clear.1 name).2 = none) ∧
    s.Clear.1.Clear.2 = 0 := by
  refine ⟨?_, Clear_m_textures s, ?_, ?_⟩
  · rw [Clear_snd]
    exact Nat.mod_eq_of_lt hsize
  · intro env name
    simp only [GetTexture, Clear_m_textures, List.find?_nil]
  · rw [Clear_snd, Clear_m_textures]
    rfl

/-- C7 (witness): clearing the registry of two textures returns 2. -/
theorem Clear_returns_count_witness :
    twoTextures.m_textures.length < 2 ^ 32 ∧ twoTextures.Clear.2 = 2 ∧
    twoTextures.Clear.2 = twoTextures.m_textures.length :=
  ⟨by decide, by decide, (Clear_returns_count twoTextures (by decide)).1⟩

/-- C8 (as stated, refuted): `Clear()` called while `brick` is loading stops the worker
and empties the load queue, but the decoded item is still in the init queue and the
placeholder is still in the pending-load table, so that `FindTexture` still reports
`brick` as loading. -/
theorem Clear_leaves_inflight_work :
    ¬ NoInflightWork loadingState.Clear.1 ∧
    loadingState.Clear.1.m_initQueue = [4] ∧
    loadingState.Clear.1.m_texturesTmp = [0] ∧
    (FindTexture refEnv loadingState.Clear.1 (str "brick") (some false)).2
      = { ret := some 0, cache := str "brick", bLoading := some true } := by
  unfold NoInflightWork
  decide

/-- C8 (amended): after `Clear()` the load queue is empty and the loader thread handle is
null. If a loader thread existed before the call the worker-active flag is false
afterwards, and otherwise the flag is as it was; whenever the flag is false afterwards,
`HasWork()` is false. -/
theorem Clear_stops_loading (s : TextureManager) :
    s.Clear.1.m_loadQueue = [] ∧
    s.Clear.1.m_threadLoad = none ∧
    (s.m_threadLoad ≠ none → s.Clear.1.m_bThreadActive = false) ∧
    (s.m_threadLoad = none → s.Clear.1.m_bThreadActive = s.m_bThreadActive) ∧
    (s.Clear.1.m_bThreadActive = false → s.Clear.1.HasWork = false) := by
  refine ⟨?_, ?_, ?_, ?_, ?_⟩
  · simp [Clear, popAll_eq_nil]
  · cases h : s.m_threadLoad <;> simp [Clear, h]
  · intro hne
    cases h : s.m_threadLoad with
    | none => exact absurd h hne
    | some t => simp [Clear, h]
  · intro h
    simp [Clear, h]
  · intro h
    exact HasWork_inactive s.Clear.1 h

end TextureManager

namespace Material

/-- On a material that is not loaded `CallOnLoaded` stores the callback and runs nothing,
whatever the body of the callback is. -/
theorem CallOnLoaded_not_loaded (bodies : Bodies) (m : Material) (f : Callback)
    (h : m.IsLoaded = false) :
    m.CallOnLoaded bodies f =
      ({ m with m_callOnLoaded := m.m_callOnLoaded ++ [CallbackHandle.Create f] },
        { handle := some (CallbackHandle.Create f), calls := [], threw := false }) := by
  simp [CallOnLoaded, h]

/-- Callbacks that only store user data keep the load state. -/
theorem taggingBodies_keepsLoadState (f : Callback) : KeepsLoadState taggingBodies f :=
  fun _ => ⟨rfl, rfl, rfl, rfl⟩

/-- C10 (as stated, refuted): callback 5 calls `SetLoaded(false)` when it runs. On a loaded
material `CallOnLoaded(5)` runs it at once, outside callback execution, so that the
`Loaded` flag is clear when `CallOnLoaded` returns: the state flags are not the same
before and after the call. -/
theorem CallOnLoaded_callback_changes_flags :
    loaded.IsLoaded = true ∧
    (loaded.CallOnLoaded unloadingBodies 5).2.calls = [5] ∧
    (loaded.CallOnLoaded unloadingBodies 5).2.handle = none ∧
    (loaded.CallOnLoaded unloadingBodies 5).1.IsLoaded = false ∧
    (loaded.CallOnLoaded unloadingBodies 5).1.m_stateFlags ≠ loaded.m_stateFlags := by
  decide

/-- C10 (amended): on a material whose `Loaded` flag is set, `CallOnLoaded(f)` invokes `f`
once, at once, and returns the empty callback handle; it does not retain `f` and
changes nothing itself: the material after the call is the one the body of `f` left.
So when `f` keeps the load state, `f` is the only callback invoked and the callback list
and the state flags are the same before and after the call. -/
theorem CallOnLoaded_when_loaded (bodies : Bodies) (m : Material) (f : Callback)
    (h : m.IsLoaded = true) :
    (m.CallOnLoaded bodies f).2.calls = f :: (bodies f m).calls ∧
    (m.CallOnLoaded bodies f).2.handle = none ∧
    (m.CallOnLoaded bodies f).1 = (bodies f m).mat ∧
    (m.CallOnLoaded bodies f).2.threw = (bodies f m).threw ∧
    (KeepsLoadState bodies f →
      (m.CallOnLoaded bodies f).2.calls = [f] ∧
      (m.CallOnLoaded bodies f).2.threw = false ∧
      (m.CallOnLoaded bodies f).1.m_callOnLoaded = m.m_callOnLoaded ∧
      (m.CallOnLoaded bodies f).1.m_stateFlags = m.m_stateFlags) := by
  have hc : m.CallOnLoaded bodies f =
      ((bodies f m).mat,
        { handle := none, calls := f :: (bodies f m).calls, threw := (bodies f m).threw }) := by
    simp [CallOnLoaded, h]
  rw [hc]
  refine ⟨rfl, rfl, rfl, rfl, ?_⟩
  intro hk
  obtain ⟨hthrew, hcalls, hlist, hflags⟩ := hk m
  exact ⟨by simp [hcalls], hthrew, hlist, hflags⟩

/-- C10 (witness): on a loaded material `CallOnLoaded(5)` runs callback 5, which stores
user data, at once; the callback list and the state flags are as before. -/
theorem CallOnLoaded_when_loaded_witness :
    loaded.IsLoaded = true ∧ (loaded.CallOnLoaded taggingBodies 5).2.calls = [5] ∧
    (loaded.CallOnLoaded taggingBodies 5).1.m_userData = some 5 ∧
    (loaded.CallOnLoaded taggingBodies 5).1.m_stateFlags = loaded.m_stateFlags :=
  ⟨by decide, by decide, by decide,
    ((CallOnLoaded_when_loaded taggingBodies loaded 5 (by decide)).2.2.2.2
      (taggingBodies_keepsLoadState 5)).2.2.2⟩

/-- C11: on a material whose `ExecutingOnLoadCallbacks` flag is set, `SetLoaded(b)` does
nothing for either `b`: no callback is invoked and the material (the `Loaded` flag, the
other flags, the callback list and all other members) is as before, so a call made from
inside a callback starts no nested round of callbacks. -/
theorem SetLoaded_noop_while_executing (bodies : Bodies) (m : Material) (b : Bool)
    (h : is_flag_set m.m_stateFlags StateFlag.ExecutingOnLoadCallbacks = true) :
    (m.SetLoaded bodies b).2 = [] ∧
    (m.SetLoaded bodies b).1.m_stateFlags = m.m_stateFlags ∧
    (m.SetLoaded bodies b).1.m_callOnLoaded = m.m_callOnLoaded ∧
    (m.SetLoaded bodies b).1 = m := by
  have hc : m.SetLoaded bodies b = { mat := m, calls := [], threw := false } := by
    simp [SetLoaded, h]
  rw [hc]
  exact ⟨rfl, rfl, rfl, rfl⟩

/-- C11 (witness): inside the loop of `SetLoaded(true)` neither `SetLoaded(true)` nor
`SetLoaded(false)` changes the material or invokes the stored callback. -/
theorem SetLoaded_noop_while_executing_witness :
    is_flag_set firing.m_stateFlags StateFlag.ExecutingOnLoadCallbacks = true ∧
    (firing.SetLoaded resettingBodies true).2 = [] ∧
    (firing.SetLoaded resettingBodies false).1 = firing :=
  ⟨by decide, (SetLoaded_noop_while_executing resettingBodies firing true (by decide)).1,
    (SetLoaded_noop_while_executing resettingBodies firing false (by decide)).2.2.2⟩

/-- The callback of a waiting material runs on the state `firing`, and when it calls `Reset`
and registers callback 7, that callback is pushed to the list during the loop, is not
invoked, and is gone when `SetLoaded(true)` has cleared the list. -/
theorem SetLoaded_drops_reentrant_registration :
    fireCallbacks reregisteringBodies 1 0 firing []
      = { mat := (firing.Reset.CallOnLoaded inertBodies 7).1, calls := [3], threw := false } ∧
    (firing.Reset.CallOnLoaded inertBodies 7).1.m_callOnLoaded
      = [CallbackHandle.Create 3, CallbackHandle.Create 7] ∧
    (waiting.SetLoaded reregisteringBodies true).calls = [3] ∧
    (waiting.SetLoaded reregisteringBodies true).mat.m_callOnLoaded = [] ∧
    (waiting.SetLoaded reregisteringBodies true).mat.IsLoaded = false := by
  decide

/-- C12 (the code at the failing input): a callback run by `SetLoaded(true)` calls `Reset`
and then `CallOnLoaded(7)`. `ExecutingOnLoadCallbacks` is still set, but `Reset` has
cleared `Loaded`, so `CallOnLoaded` does not run the callback and pushes it to the back
of the list that `SetLoaded` is iterating. -/
theorem CallOnLoaded_appends_while_executing (bodies : Bodies) :
    is_flag_set firing.Reset.m_stateFlags StateFlag.ExecutingOnLoadCallbacks = true ∧
    firing.Reset.m_callOnLoaded = [CallbackHandle.Create 3] ∧
    (firing.Reset.CallOnLoaded bodies 7).2.calls = [] ∧
    (firing.Reset.CallOnLoaded bodies 7).1.m_callOnLoaded
      = [CallbackHandle.Create 3, CallbackHandle.Create 7] := by
  have hnot : firing.Reset.IsLoaded = false := by decide
  rw [CallOnLoaded_not_loaded bodies firing.Reset 7 hnot]
  exact ⟨by decide, by decide, rfl, by decide⟩

end Material

namespace TextureManager

/-- The search by address fails when the object is not a registry entry. -/
theorem find_if_index_none (texture : TexPtr) :
    ∀ l : List TexPtr, texture ∉ l →
      find_if_index (fun texOther => decide (texOther = texture)) l = none
  | [], _ => rfl
  | x :: xs, h => by
    have hx : ¬ x = texture := fun hx => h (hx ▸ List.mem_cons_self x xs)
    have hxs : texture ∉ xs := fun hmem => h (List.mem_cons_of_mem x hmem)
    simp [find_if_index, hx, find_if_index_none texture xs hxs]

/-- With a realized entry at `texId`, `ReloadTexture` calls `Load` for it and stores the
pointer that comes back. -/
theorem ReloadTexture_realized (Load : LoadFn) (s : TextureManager) (texId : Nat)
    (loadInfo : LoadInfo) (texture : TexPtr) (hentry : s.m_textures[texId]? = some texture)
    (hvalid : s.HasValidVkTexture texture = true) :
    ReloadTexture Load s texId loadInfo =
      { (Load s ((s.GetName texture).getD []) loadInfo texture).1 with
        m_textures := (Load s ((s.GetName texture).getD []) loadInfo texture).1.m_textures.set
          texId (Load s ((s.GetName texture).getD []) loadInfo texture).2 } := by
  have hlt : texId < s.m_textures.length := by
    by_contra hge
    rw [List.getElem?_eq_none (Nat.le_of_not_lt hge)] at hentry
    cases hentry
  have hnot : ¬ texId ≥ s.m_textures.length := Nat.not_le_of_lt hlt
  simp only [ReloadTexture, if_neg hnot, hentry, hvalid]
  rfl

/-- C13: reloading is a no-op when there is nothing realized to reload. Whatever `Load`
does when called, `ReloadTexture(texId, info)` with `texId` at or beyond the registry
size, or with an entry that has no valid GPU texture, and `ReloadTexture(texture, info)`
for an object that is not a registry entry leave the whole state (registry, pending
table, queues, objects) as it was: `Load` is not called and no request is issued. -/
theorem ReloadTexture_noop (Load : LoadFn) (s : TextureManager) (loadInfo : LoadInfo) :
    (∀ texId : Nat, s.m_textures.length ≤ texId → ReloadTexture Load s texId loadInfo = s) ∧
    (∀ (texId : Nat) (texture : TexPtr), s.m_textures[texId]? = some texture →
      s.HasValidVkTexture texture = false → ReloadTexture Load s texId loadInfo = s) ∧
    (∀ texture : TexPtr, texture ∉ s.m_textures →
      ReloadTextureRef Load s texture loadInfo = s) := by
  refine ⟨?_, ?_, ?_⟩
  · intro texId hge
    simp only [ReloadTexture, if_pos (show texId ≥ s.m_textures.length from hge)]
  · intro texId texture hentry hvalid
    unfold ReloadTexture
    split
    · rfl
    · simp only [hentry, hvalid, if_true]
  · intro texture hmem
    simp only [ReloadTextureRef, find_if_index_none texture s.m_textures hmem]

/-- C14 (as stated, refuted): applied with mode `Load` to a configuration that has the zero
LOD range (here the one mode `Ignore` produces), `SetupSamplerMipmapMode` sets the
linear filters and leaves the LOD range zero, not full. -/
theorem SetupSamplerMipmapMode_keeps_zero_lod :
    ZeroLodRange (SetupSamplerMipmapMode
      (SetupSamplerMipmapMode prosper.SamplerCreateInfo.new TextureMipmapMode.Ignore)
      TextureMipmapMode.Load) ∧
    ¬ FullLodRange (SetupSamplerMipmapMode
      (SetupSamplerMipmapMode prosper.SamplerCreateInfo.new TextureMipmapMode.Ignore)
      TextureMipmapMode.Load) := by
  constructor
  · exact ⟨rfl, rfl⟩
  · intro h
    have hmax : (0 : ℚ) = prosper.floatMax := h.2
    unfold prosper.floatMax at hmax
    norm_num at hmax

/-- C14 (amended): for mode `Ignore`, `SetupSamplerMipmapMode` sets min filter, mag filter
and mipmap mode to nearest and the LOD range to zero; for every other mode (`Load`,
`Generate`) it sets the three to linear and leaves `minLod` and `maxLod` as they were, so
that the configuration has the full LOD range when it had it before the call, as a
default-constructed one does. No other member of the configuration is changed. -/
theorem SetupSamplerMipmapMode_spec (createInfo : prosper.SamplerCreateInfo)
    (mode : TextureMipmapMode) :
    (mode = TextureMipmapMode.Ignore →
      (SetupSamplerMipmapMode createInfo mode).minFilter = prosper.Filter.Nearest ∧
      (SetupSamplerMipmapMode createInfo mode).magFilter = prosper.Filter.Nearest ∧
      (SetupSamplerMipmapMode createInfo mode).mipmapMode = prosper.SamplerMipmapMode.Nearest ∧
      ZeroLodRange (SetupSamplerMipmapMode createInfo mode)) ∧
    (mode ≠ TextureMipmapMode.Ignore →
      (SetupSamplerMipmapMode createInfo mode).minFilter = prosper.Filter.Linear ∧
      (SetupSamplerMipmapMode createInfo mode).magFilter = prosper.Filter.Linear ∧
      (SetupSamplerMipmapMode createInfo mode).mipmapMode = prosper.SamplerMipmapMode.Linear ∧
      (SetupSamplerMipmapMode createInfo mode).minLod = createInfo.minLod ∧
      (SetupSamplerMipmapMode createInfo mode).maxLod = createInfo.maxLod ∧
      (FullLodRange createInfo → FullLodRange (SetupSamplerMipmapMode createInfo mode))) ∧
    FullLodRange (SetupSamplerMipmapMode prosper.SamplerCreateInfo.new TextureMipmapMode.Load) ∧
    FullLodRange
      (SetupSamplerMipmapMode prosper.SamplerCreateInfo.new TextureMipmapMode.Generate) ∧
    SameOtherFields createInfo (SetupSamplerMipmapMode createInfo mode) := by
  refine ⟨?_, ?_, ⟨rfl, rfl⟩, ⟨rfl, rfl⟩, ?_⟩
  · intro h
    subst h
    exact ⟨rfl, rfl, rfl, rfl, rfl⟩
  · intro h
    cases mode with
    | Ignore => exact absurd rfl h
    | Load => exact ⟨rfl, rfl, rfl, rfl, rfl, fun hf => hf⟩
    | Generate => exact ⟨rfl, rfl, rfl, rfl, rfl, fun hf => hf⟩
  · cases mode <;> exact ⟨rfl, rfl, rfl, rfl, rfl, rfl, rfl⟩

end TextureManager

/-- A character that does not occur has no last occurrence. -/
theorem find_last_of_eq_none (c : Char) : ∀ t : Str, c ∉ t → find_last_of t c = none
  | [], _ => rfl
  | x :: xs, h => by
    have hx : ¬ x = c := fun hx => h (hx ▸ List.mem_cons_self x xs)
    have hxs : c ∉ xs := fun hmem => h (List.mem_cons_of_mem x hmem)
    simp [find_last_of, find_last_of_eq_none c xs hxs, hx]

/-- A character that occurs has a last occurrence. -/
theorem find_last_of_of_mem (c : Char) : ∀ t : Str, c ∈ t → ∃ r, find_last_of t c = some r
  | [], h => by simp at h
  | x :: xs, h => by
    cases hrec : find_last_of xs c with
    | some i => exact ⟨i + 1, by simp [find_last_of, hrec]⟩
    | none =>
      have hx : x = c := by
        rcases List.mem_cons.1 h with hc | hc
        · exact hc.symm
        · obtain ⟨r, hr⟩ := find_last_of_of_mem c xs hc
          rw [hr] at hrec
          cases hrec
      exact ⟨0, by simp [find_last_of, hrec, hx]⟩

/-- The last occurrence lies inside the string. -/
theorem find_last_of_lt (c : Char) : ∀ (t : Str) (r : Nat), find_last_of t c = some r → r < t.length
  | [], r, h => by simp [find_last_of] at h
  | x :: xs, r, h => by
    cases hrec : find_last_of xs c with
    | some i =>
      have hi := find_last_of_lt c xs i hrec
      simp only [find_last_of, hrec, Option.some.injEq] at h
      simp only [List.length_cons]
      omega
    | none =>
      simp only [find_last_of, hrec] at h
      by_cases hx : x = c
      · simp only [hx, if_true, Option.some.injEq] at h
        simp only [List.length_cons]
        omega
      · simp [hx] at h

/-- Appending a part without the character does not move its last occurrence. -/
theorem find_last_of_append (c : Char) (t : Str) (ht : c ∉ t) :
    ∀ p : Str, find_last_of (p ++ t) c = find_last_of p c
  | [] => by simp [find_last_of, find_last_of_eq_none c t ht]
  | x :: xs => by
    have ih := find_last_of_append c t ht xs
    rw [List.cons_append]
    simp only [find_last_of, ih]

/-- The first occurrence lies inside the string. -/
theorem find_first_lt (c : Char) : ∀ (a : Str) (d : Nat), find_first a c = some d → d < a.length
  | [], d, h => by simp [find_first] at h
  | x :: xs, d, h => by
    by_cases hx : x = c
    · simp only [find_first, hx, if_true, Option.some.injEq] at h
      simp only [List.length_cons]
      omega
    · simp only [find_first, hx, if_false] at h
      cases hrec : find_first xs c with
      | none => simp [hrec] at h
      | some i =>
        have hi := find_first_lt c xs i hrec
        simp only [hrec, Option.map_some', Option.some.injEq] at h
        simp only [List.length_cons]
        omega

/-- In a string followed by the character, the first occurrence is the one inside the
string when there is one, and otherwise the appended character. -/
theorem find_first_append_cons (c : Char) (e : Str) :
    ∀ a : Str, find_first (a ++ c :: e) c = some ((find_first a c).getD a.length)
  | [] => by simp [find_first]
  | x :: xs => by
    by_cases hx : x = c
    · simp [find_first, hx]
    · have ih := find_first_append_cons c e xs
      rw [List.cons_append]
      simp only [find_first, hx, if_false, ih]
      cases find_first xs c <;> simp

/-- The search from a position inside the string, in the string followed by the
character. -/
theorem find_append_cons (c : Char) (p e : Str) (k : Nat) (hk : k ≤ p.length) :
    find (p ++ c :: e) c k = some ((find p c k).getD p.length) := by
  simp only [find, List.drop_append_of_le_length hk, find_first_append_cons]
  cases find_first (List.drop k p) c with
  | none =>
    simp only [Option.getD_none, Option.map_some', Option.map_none', List.length_drop]
    congr 1
    omega
  | some d => simp

/-- A successful search from a position gives a position inside the string. -/
theorem find_lt (c : Char) (p : Str) (k d : Nat) (h : find p c k = some d) : d < p.length := by
  simp only [find] at h
  cases hf : find_first (List.drop k p) c with
  | none => simp [hf] at h
  | some i =>
    have hi := find_first_lt c _ i hf
    simp only [hf, Option.map_some', Option.some.injEq] at h
    simp only [List.length_drop] at hi
    omega

namespace TextureManager

/-- The key of a name with an extension appended is the key of the name, when the
normalized name has a directory part. -/
theorem cacheKey_append_extension (env : Env) (name e : Str)
    (hnorm : env.GetNormalizedPath (name ++ dot :: e) = env.GetNormalizedPath name ++ dot :: e)
    (hdir : backslash ∈ env.GetNormalizedPath name) (he : backslash ∉ e) :
    cacheKey env (name ++ dot :: e) = cacheKey env name := by
  obtain ⟨r, hr⟩ := find_last_of_of_mem backslash _ hdir
  have hrlt := find_last_of_lt backslash _ r hr
  have hsuffix : backslash ∉ dot :: e := by
    intro hmem
    rcases List.mem_cons.1 hmem with h | h
    · exact absurd h (by decide)
    · exact he h
  have hlast : find_last_of (env.GetNormalizedPath name ++ dot :: e) backslash = some r := by
    rw [find_last_of_append backslash _ hsuffix, hr]
  have hfind := find_append_cons dot (env.GetNormalizedPath name) e (r + 1) hrlt
  simp only [cacheKey, hnorm, hlast, hr, hfind]
  cases hd : find (env.GetNormalizedPath name) dot (r + 1) with
  | none =>
    simp [substr]
  | some d =>
    have hdlt := find_lt dot _ (r + 1) d hd
    simp only [Option.getD_some, substr, List.drop_zero]
    exact List.take_append_of_le_length (Nat.le_of_lt hdlt)

/-- C16 (as stated, refuted): for the file name `brick`, which has no directory part, and
the extension `dds`, `FindTexture` keeps the extension in the key: the key of `brick.dds`
is `brick.dds` while the key of `brick` is `brick`, and in a registry holding `brick` the
lookup of `brick` finds the entry while the lookup of `brick.dds` returns null. -/
theorem FindTexture_keeps_extension_without_directory :
    cacheKey refEnv (str "brick" ++ dot :: str "dds") = str "brick.dds" ∧
    cacheKey refEnv (str "brick") = str "brick" ∧
    (FindTexture refEnv brickRegistry (str "brick") (some false)).2.ret = some 0 ∧
    (FindTexture refEnv brickRegistry (str "brick" ++ dot :: str "dds") (some false)).2.ret
      = none := by
  decide

/-- C16 (amended): for every file name whose normalized path has a directory part (it
contains a `\`) and every extension `e` without a `\`, where `GetNormalizedPath` keeps
the appended `.e` as it is, `FindTexture` computes the same key for the name with `.e`
appended as for the name itself, and so all three overloads return the same pointer and
the same `bLoading` value for both. For a name whose normalized path has no `\` the key
is the whole normalized path, extension included. -/
theorem FindTexture_extension_insensitive (env : Env) (s : TextureManager) (name e : Str)
    (bLoading : Option Bool) (bLoadedOnly : Bool)
    (hnorm : env.GetNormalizedPath (name ++ dot :: e) = env.GetNormalizedPath name ++ dot :: e)
    (hdir : backslash ∈ env.GetNormalizedPath name) (he : backslash ∉ e) :
    cacheKey env (name ++ dot :: e) = cacheKey env name ∧
    FindTexture env s (name ++ dot :: e) bLoading = FindTexture env s name bLoading ∧
    FindTexture_bLoading env s (name ++ dot :: e) bLoading
      = FindTexture_bLoading env s name bLoading ∧
    FindTexture_bLoadedOnly env s (name ++ dot :: e) bLoadedOnly
      = FindTexture_bLoadedOnly env s name bLoadedOnly ∧
    (∀ imgFile : Str, backslash ∉ env.GetNormalizedPath imgFile →
      cacheKey env imgFile = env.GetNormalizedPath imgFile) := by
  have hkey := cacheKey_append_extension env name e hnorm hdir he
  have hfind : ∀ b, FindTexture env s (name ++ dot :: e) b = FindTexture env s name b := by
    intro b
    simp only [FindTexture, hkey]
  refine ⟨hkey, hfind bLoading, ?_, ?_, ?_⟩
  · simp only [FindTexture_bLoading, hfind]
  · simp only [FindTexture_bLoadedOnly, FindTexture_bLoading, hfind]
  · intro imgFile hno
    simp only [cacheKey, find_last_of_eq_none backslash _ hno]

/-- C16 (witness): `materials/brick.dds` and `materials/brick` have the same key,
`materials\brick`. -/
theorem FindTexture_extension_insensitive_witness :
    refEnv.GetNormalizedPath (str "materials/brick" ++ dot :: str "dds")
      = refEnv.GetNormalizedPath (str "materials/brick") ++ dot :: str "dds" ∧
    backslash ∈ refEnv.GetNormalizedPath (str "materials/brick") ∧
    backslash ∉ str "dds" ∧
    cacheKey refEnv (str "materials/brick") = str "materials\\brick" ∧
    cacheKey refEnv (str "materials/brick" ++ dot :: str "dds")
      = cacheKey refEnv (str "materials/brick") :=
  ⟨by decide, by decide, by decide, by decide,
    (FindTexture_extension_insensitive refEnv brickRegistry (str "materials/brick") (str "dds")
      (some false) false (by decide) (by decide) (by decide)).1⟩

/-- With a realized entry, `ReloadTexture` does hand the entry to `Load`: with a `Load`
that enqueues a request, the load queue holds the request afterwards. -/
theorem ReloadTexture_issues_load :
    (ReloadTexture enqueueLoad twoTextures 0 LoadInfo.new).m_loadQueue = [0] ∧
    (ReloadTextureRef enqueueLoad twoTextures 1 LoadInfo.new).m_loadQueue = [1] := by
  decide

end TextureManager

end MatSys
